import Mathlib

/-!
# Verification of the IR-System-BE retrieval core

Shallow embedding of the nontrivial algorithms of the repository:

* `app/utils/evaluation.py` — precision@k, average precision, MAP
  (exact rational arithmetic; Python floats are modelled by `ℚ`, all
  quantities involved are finite sums of small rationals);
* `app/services/retrieval_service.py` — TF-IDF weighting, query
  weighting, similarity ranking, single/batch retrieval
  (weights live in an arbitrary linear ordered field `K`; the float
  library functions `math.log2`, `math.log` and `math.sqrt` enter as
  explicit function parameters `log2`, `ln`, `sqrtK`);
* `app/services/query_expansion_service.py` — query expansion
  (the trained Word2Vec model is the external similarity oracle, passed
  as a function parameter `oracle`).

Python dictionaries are modelled as insertion-ordered association lists
(`List (String × _)`); a dict never has duplicate keys, which appears
below as `Nodup` hypotheses on key lists where a theorem needs it.
-/

namespace IRSB

/-- First-match lookup in an association list: `d.get(k)` on a Python
dict (dict keys are unique, so first-match is exact). -/
def lookupA {α : Type} : List (String × α) → String → Option α
  | [], _ => none
  | p :: rest, k => if p.1 = k then some p.2 else lookupA rest k

/-- `d.get(k, dflt)` on a Python dict. -/
def lookupD {α : Type} (l : List (String × α)) (k : String) (dflt : α) : α :=
  (lookupA l k).getD dflt

/-- The key list of an association list (`d.keys()`). -/
def keys {α : Type} (l : List (String × α)) : List String :=
  l.map Prod.fst

/-- The weighting-flag dictionary.  Both weighting functions read their
flags with `weighting_method.get(name, False)`; the document side reads
`tf_log`, the query side reads `tf_logarithmic`. -/
structure WeightingMethod where
  tf_raw : Bool := false
  tf_log : Bool := false
  tf_binary : Bool := false
  tf_augmented : Bool := false
  use_idf : Bool := false
  use_normalization : Bool := false
  tf_logarithmic : Bool := false
deriving Repr, DecidableEq

/-! ## Evaluation engine (`app/utils/evaluation.py`) -/

/-- `calculate_precision_at_k(retrieved_docs, relevant_docs, k)`:
the loop `for index in range(0, k): if retrieved_docs[index] in
relevant_docs: count += 1` followed by `count / k`.  Faithful for
`1 ≤ k ≤ retrieved_docs.length`, the only way the repository invokes it
(Python raises `IndexError` for larger `k` and `ZeroDivisionError` for
`k = 0`; `ℚ` division by zero returns `0` instead). -/
def calculate_precision_at_k (retrieved_docs relevant_docs : List String)
    (k : ℕ) : ℚ :=
  ((retrieved_docs.take k).countP (fun d => d ∈ relevant_docs) : ℚ) / (k : ℚ)

/-- The loop of `calculate_average_precision`:
`for idx, doc in enumerate(retrieved_docs): if doc in relevant_docs:
sum_precisions += calculate_precision_at_k(retrieved_docs,
relevant_docs, idx + 1)`.  `idx` is the 0-based index of the first
element of `rest` inside `retrieved_docs`. -/
def sum_precisions (retrieved_docs relevant_docs : List String) :
    ℕ → List String → ℚ
  | _, [] => 0
  | idx, doc :: rest =>
    (if doc ∈ relevant_docs then
      calculate_precision_at_k retrieved_docs relevant_docs (idx + 1)
    else 0) + sum_precisions retrieved_docs relevant_docs (idx + 1) rest

/-- `calculate_average_precision(retrieved_docs, relevant_docs)`:
for each 0-based position `idx` with `retrieved_docs[idx]` relevant, add
`precision@(idx+1)`; finally divide by `len(relevant_docs)`.  Python
raises `ZeroDivisionError` when `relevant_docs` is empty; `ℚ` division
by zero returns `0` there, and every theorem below that touches the
value restricts to nonempty `relevant_docs`. -/
def calculate_average_precision (retrieved_docs relevant_docs : List String) :
    ℚ :=
  sum_precisions retrieved_docs relevant_docs 0 retrieved_docs /
    (relevant_docs.length : ℚ)

/-- The loop of `calculate_map`: iterate the retrieved dictionary in
order; a query id with no entry in the relevant dictionary raises
`Exception("There is a query that doesn't have any relevant document")`
(modelled as `Except.error`); otherwise the per-query average
precisions are summed. -/
def sum_average_precisions (all_relevant_docs : List (String × List String)) :
    List (String × List String) → Except String ℚ
  | [] => Except.ok 0
  | p :: rest =>
    match lookupA all_relevant_docs p.1 with
    | none =>
        Except.error "There is a query that doesn't have any relevant document"
    | some rel =>
        match sum_average_precisions all_relevant_docs rest with
        | Except.error e => Except.error e
        | Except.ok s =>
            Except.ok (calculate_average_precision p.2 rel + s)

/-- `calculate_map(all_retrieved_docs, all_relevant_docs)`: sum the
average precisions over `all_retrieved_docs` (raising on a query id
with no relevance judgment), then divide by the number of queries
(`ZeroDivisionError` when the retrieved dictionary is empty). -/
def calculate_map (all_retrieved_docs all_relevant_docs :
    List (String × List String)) : Except String ℚ :=
  match sum_average_precisions all_relevant_docs all_retrieved_docs with
  | Except.error e => Except.error e
  | Except.ok s =>
      if all_retrieved_docs.length = 0 then Except.error "ZeroDivisionError"
      else Except.ok (s / (all_retrieved_docs.length : ℚ))

section Weighting

variable {K : Type} [LinearOrderedField K]

/-- `RetrievalService.calculate_tf_idf(term, doc, freq_file,
weighting_method)`, returning the `"weight"` entry of the result
dictionary (the other two entries only echo `term` and `doc`).
`freq_file` maps each document id to its term-frequency `Counter`;
`log2` stands for the float function `math.log2`.  Python's
`max(freqs_in_doc) if freqs_in_doc else 1` is the fold of binary `max`
over a nonempty list, `1` otherwise. -/
def calculate_tf_idf (log2 : K → K) (term doc : String)
    (freq_file : List (String × List (String × ℕ)))
    (weighting_method : WeightingMethod) : K :=
  let term_docs := lookupD freq_file doc []
  let freq_in_doc := lookupD term_docs term 0
  if freq_in_doc = 0 then 0
  else
    let tf : K :=
      if weighting_method.tf_raw then (freq_in_doc : K)
      else if weighting_method.tf_log then 1 + log2 (freq_in_doc : K)
      else if weighting_method.tf_binary then 1
      else if weighting_method.tf_augmented then
        let freqs_in_doc := term_docs.map Prod.snd
        let max_freq := if freqs_in_doc = [] then 1 else freqs_in_doc.foldr max 0
        1 / 2 + 1 / 2 * ((freq_in_doc : K) / (max_freq : K))
      else (freq_in_doc : K)
    let N := freq_file.length
    let df := (freq_file.filter (fun p => (lookupA p.2 term).isSome)).length
    let idf : K :=
      if weighting_method.use_idf then log2 ((N : K) / (df : K)) else 1
    let normalization : K :=
      if weighting_method.use_normalization then
        let doc_length := (term_docs.map Prod.snd).sum
        1 / ((if doc_length = 0 then 1 else doc_length : ℕ) : K)
      else 1
    tf * idf * normalization

/-- The nested closure `get_tf_weight(tf)` of
`RetrievalService.calculate_query_weight`, lifted to the top level with
its captured variables (`weighting_method`, `max_tf`) as arguments.
`ln` stands for the float function `math.log` (natural logarithm). -/
def get_tf_weight (ln : K → K) (weighting_method : WeightingMethod)
    (max_tf : ℕ) (tf : ℕ) : K :=
  if weighting_method.tf_raw then (tf : K)
  else if weighting_method.tf_augmented then
    1 / 2 + 1 / 2 * ((tf : K) / (max_tf : K))
  else if weighting_method.tf_binary then
    if 0 < tf then 1 else 0
  else if weighting_method.tf_logarithmic then
    if 0 < tf then 1 + ln (tf : K) else 0
  else (tf : K)

/-- One step of `term_freq[term] = term_freq.get(term, 0) + 1` on an
insertion-ordered dictionary. -/
def bump_count : List (String × ℕ) → String → List (String × ℕ)
  | [], t => [(t, 1)]
  | p :: rest, t =>
    if p.1 = t then (p.1, p.2 + 1) :: rest else p :: bump_count rest t

/-- The query term-frequency dictionary: `for term in query_terms:
term_freq[term] = term_freq.get(term, 0) + 1`. -/
def term_freq_of (query_terms : List String) : List (String × ℕ) :=
  query_terms.foldl bump_count []

/-- `RetrievalService.calculate_query_weight(query, weighting_method,
inverted_file)`.  `tokenize` is the external tokenizer imported from
`app.test.retrieval_test` (NLTK `word_tokenize` with a `split`
fallback), `ln` is `math.log` and `sqrtK` is `math.sqrt`. -/
def calculate_query_weight (ln sqrtK : K → K) (tokenize : String → List String)
    (query : String) (weighting_method : WeightingMethod)
    (inverted_file : List (String × List (String × K))) : List (String × K) :=
  let query_terms := tokenize query
  let term_freq := term_freq_of query_terms
  let max_tf :=
    if term_freq = [] then 1 else (term_freq.map Prod.snd).foldr max 0
  -- N = len({doc_id for postings in inverted_file.values() for doc_id in postings})
  let N := ((inverted_file.map (fun p => keys p.2)).flatten).dedup.length
  let query_vector := term_freq.foldl
    (fun acc p =>
      let tf_weight := get_tf_weight ln weighting_method max_tf p.2
      let idf : K :=
        match lookupA inverted_file p.1 with
        | some postings =>
            if 0 < postings.length then
              ln ((N : K) / (postings.length : K))
            else 0
        | none => 0
      let weight :=
        if weighting_method.use_idf then tf_weight * idf else tf_weight
      if 0 < weight then acc ++ [(p.1, weight)] else acc)
    []
  if weighting_method.use_normalization then
    let norm := sqrtK ((query_vector.map (fun p => p.2 ^ 2)).sum)
    if 0 < norm then query_vector.map (fun p => (p.1, p.2 / norm))
    else query_vector
  else query_vector

/-- `query_docs_similarities.setdefault(doc, 0);
query_docs_similarities[doc] += v` on an insertion-ordered
dictionary. -/
def add_score : List (String × K) → String → K → List (String × K)
  | [], doc, v => [(doc, v)]
  | p :: rest, doc, v =>
    if p.1 = doc then (p.1, p.2 + v) :: rest else p :: add_score rest doc v

/-- The ordering used to model Python's stable
`sorted(items, key=lambda item: item[1], reverse=True)`: elements are
tagged with their original position; `a` precedes `b` iff `a`'s key is
strictly larger, or the keys are equal and `a` came first.  This
relation is total, transitive and antisymmetric, so the sorted
permutation is unique and any correct stable sort (CPython's Timsort,
Lean's `insertionSort`) produces the same list. -/
def descIdx {β : Type} (val : β → K) (a b : ℕ × β) : Prop :=
  val b.2 < val a.2 ∨ (val a.2 = val b.2 ∧ a.1 ≤ b.1)

instance {β : Type} (val : β → K) : DecidableRel (descIdx val) := fun a b => by
  unfold descIdx; infer_instance

instance {β : Type} (val : β → K) : IsTotal (ℕ × β) (descIdx val) where
  total a b := by
    rcases lt_trichotomy (val a.2) (val b.2) with h | h | h
    · exact Or.inr (Or.inl h)
    · rcases Nat.le_total a.1 b.1 with h' | h'
      · exact Or.inl (Or.inr ⟨h, h'⟩)
      · exact Or.inr (Or.inr ⟨h.symm, h'⟩)
    · exact Or.inl (Or.inl h)

instance {β : Type} (val : β → K) : IsTrans (ℕ × β) (descIdx val) where
  trans a b c hab hbc := by
    rcases hab with hab | ⟨hab, hab'⟩ <;> rcases hbc with hbc | ⟨hbc, hbc'⟩
    · exact Or.inl (hbc.trans hab)
    · exact Or.inl (hbc ▸ hab)
    · exact Or.inl (hab ▸ hbc)
    · exact Or.inr ⟨hab.trans hbc, hab'.trans hbc'⟩

/-- Python's `sorted(l, key=val, reverse=True)` (stable): tag with the
original index, sort by the total order `descIdx val`, drop the tags. -/
def sorted_desc {β : Type} (val : β → K) (l : List β) : List β :=
  (List.insertionSort (descIdx val) l.enum).map Prod.snd

/-- `RetrievalService.calculate_similarity(query_vector,
document_vectors)`: accumulate `score[doc] += queryWeight[term] *
indexWeight[term][doc]` over the terms of the query vector, then (when
nonempty) sort by descending score. -/
def calculate_similarity (query_vector : List (String × K))
    (document_vectors : List (String × List (String × K))) :
    List (String × K) :=
  let query_docs_similarities := query_vector.foldl
    (fun acc q =>
      match lookupA document_vectors q.1 with
      | some postings =>
          postings.foldl (fun acc2 d => add_score acc2 d.1 (q.2 * d.2)) acc
      | none => acc)
    []
  if 0 < query_docs_similarities.length then
    sorted_desc Prod.snd query_docs_similarities
  else query_docs_similarities

/-! ## Query expansion (`app/services/query_expansion_service.py`) -/

/-- `QueryExpansionService.get_similar_terms(term, threshold)`: the
external Word2Vec oracle (`self.model.wv.most_similar(term, topn=10)`,
returning `[]` for unknown terms) is the parameter `oracle`; the
function keeps the candidates with `similarity >= threshold`. -/
def get_similar_terms (oracle : String → List (String × K)) (threshold : K)
    (term : String) : List (String × K) :=
  (oracle term).filter (fun p => threshold ≤ p.2)

/-- One pooled expansion candidate: the `term_dict` with its added
`"source"` key. -/
structure ExpansionCandidate (K : Type) where
  source : String
  term : String
  similarity : K
deriving DecidableEq

/-- `d[k] = v` on an insertion-ordered dictionary. -/
def upsert {α : Type} : List (String × α) → String → α → List (String × α)
  | [], k, v => [(k, v)]
  | p :: rest, k, v =>
    if p.1 = k then (k, v) :: rest else p :: upsert rest k v

/-- `d.setdefault(k, []).append(x)` on an insertion-ordered
dictionary. -/
def append_to_key {α : Type} :
    List (String × List α) → String → α → List (String × List α)
  | [], k, x => [(k, [x])]
  | p :: rest, k, x =>
    if p.1 = k then (p.1, p.2 ++ [x]) :: rest else p :: append_to_key rest k x

/-- The dictionary returned by `QueryExpansionService.expand_query`
(without the `original_query` echo field). -/
structure ExpansionResult (K : Type) where
  original_terms : List String
  expansion_terms : List (String × List (String × K))
  expanded_terms : List String

/-- `QueryExpansionService.expand_query(query, threshold, limit)` after
query preprocessing: `query_terms` is the token list produced by
`preprocess_text` (external text normalizer).  `limit = -1` means
unlimited; `isLimited = limit > -1`. -/
def expand_query (oracle : String → List (String × K))
    (query_terms : List String) (threshold : K) (limit : ℤ) :
    ExpansionResult K :=
  let isLimited := -1 < limit
  let expansion_terms := query_terms.foldl
    (fun acc term =>
      let similar_terms := get_similar_terms oracle threshold term
      if similar_terms ≠ [] then upsert acc term similar_terms else acc)
    []
  let all_expansion_candidates : List (ExpansionCandidate K) :=
    if isLimited then
      query_terms.foldl
        (fun acc term =>
          acc ++ (get_similar_terms oracle threshold term).map
            (fun p => ⟨term, p.1, p.2⟩))
        []
    else []
  if isLimited then
    let sorted := sorted_desc (fun c => c.similarity) all_expansion_candidates
    let truncated := sorted.take limit.toNat
    let returned_expansion_terms := truncated.foldl
      (fun acc c => append_to_key acc c.source (c.term, c.similarity)) []
    { original_terms := query_terms
      expansion_terms := returned_expansion_terms
      expanded_terms := query_terms ++ truncated.map (fun c => c.term) }
  else
    { original_terms := query_terms
      expansion_terms := expansion_terms
      -- the source's "# Hapus duplikat" (remove duplicates) comment on
      -- this field notwithstanding, no deduplication is performed
      expanded_terms :=
        query_terms ++ ((expansion_terms.map Prod.snd).flatten).map Prod.fst }

/-! ## Retrieval service entry points
(`app/services/retrieval_service.py`).  The source declares these
`async` but the batch function calls `retrieve_document_single_query`
(and that function calls `calculate_query_weight`) without `await`;
the embedding of `async def` functions as plain functions erases
`await`, i.e. it models the evidently intended data flow. -/

/-- `RetrievalService.retrieve_document_single_query(query,
inverted_file, weighting_method, relevant_doc)`. -/
def retrieve_document_single_query (ln sqrtK : K → K)
    (tokenize : String → List String) (query : String)
    (inverted_file : List (String × List (String × K)))
    (weighting_method : WeightingMethod) (relevant_doc : List ℤ) :
    (List (String × K)) × ℚ :=
  let query_vector :=
    calculate_query_weight ln sqrtK tokenize query weighting_method
      inverted_file
  let sim := calculate_similarity query_vector inverted_file
  let ranked_docs := sim.map Prod.fst
  let average_precision : ℚ :=
    if relevant_doc.length ≠ 0 then
      calculate_average_precision ranked_docs
        (relevant_doc.map (fun i => toString i))
    else 0
  (sim, average_precision)

/-- `RetrievalService.retrieve_document_batch_query(list_query,
inverted_file, weighting_method, relevant_doc)`: process only the
queries whose id has a relevance judgment, then average their AP values
(`ZeroDivisionError` when none was processed). -/
def retrieve_document_batch_query (ln sqrtK : K → K)
    (tokenize : String → List String) (list_query : List (String × String))
    (inverted_file : List (String × List (String × K)))
    (weighting_method : WeightingMethod)
    (relevant_doc : List (String × List ℤ)) :
    Except String ((List ((List (String × K)) × ℚ)) × ℚ) :=
  let tuple_sim_ap := list_query.foldl
    (fun acc p =>
      match lookupA relevant_doc p.1 with
      | some rd =>
          acc ++ [retrieve_document_single_query ln sqrtK tokenize p.2
            inverted_file weighting_method rd]
      | none => acc)
    []
  let average_precisions := tuple_sim_ap.map Prod.snd
  if average_precisions.length = 0 then Except.error "ZeroDivisionError"
  else
    Except.ok
      (tuple_sim_ap, average_precisions.sum / (average_precisions.length : ℚ))

end Weighting

/-! ## Specification-side definitions

The following definitions restate, in the spec's own words, the
quantities the claims talk about; the claim theorems compare them with
the embedded source functions above. -/

section SpecSide

variable {K : Type} [LinearOrderedField K]

/-- The TF component exactly as the claim words it: `f` under `tf_raw`,
`1 + log2 f` under `tf_log`, `1` under `tf_binary`,
`0.5 + 0.5*(f / maxFreqInDoc)` under `tf_augmented`, and `f` by default
when no TF flag is set. -/
def spec_tf (log2 : K → K) (wm : WeightingMethod) (f maxFreqInDoc : ℕ) : K :=
  if wm.tf_raw then (f : K)
  else if wm.tf_log then 1 + log2 (f : K)
  else if wm.tf_binary then 1
  else if wm.tf_augmented then
    1 / 2 + 1 / 2 * ((f : K) / (maxFreqInDoc : K))
  else (f : K)

/-- "the maximum raw frequency of any term in that same document". -/
def spec_maxFreqInDoc (term_docs : List (String × ℕ)) : ℕ :=
  (term_docs.map Prod.snd).foldr max 0

/-- "df = number of documents containing t". -/
def spec_df (freq_file : List (String × List (String × ℕ)))
    (term : String) : ℕ :=
  (freq_file.filter (fun p => term ∈ keys p.2)).length

/-- "IDF is log2(N/df) when use_idf is set ... and 1.0 otherwise". -/
def spec_idf (log2 : K → K) (wm : WeightingMethod) (N df : ℕ) : K :=
  if wm.use_idf then log2 ((N : K) / (df : K)) else 1

/-- "Normalization is 1/docLength (docLength = sum of raw term
frequencies in d, floored to 1 when the document is empty) when
use_normalization is set and 1.0 otherwise". -/
def spec_normalization (wm : WeightingMethod)
    (term_docs : List (String × ℕ)) : K :=
  if wm.use_normalization then
    1 / ((if term_docs = [] then 1 else (term_docs.map Prod.snd).sum : ℕ) : K)
  else 1

/-- The four TF variants, named. -/
inductive TFKind where
  | raw
  | log
  | binary
  | augmented
deriving DecidableEq

/-- "the first true flag in the fixed precedence order": scan a
flag/variant list and return the variant of the first flag that is
set. -/
def firstTrueFlag : List (Bool × TFKind) → Option TFKind
  | [] => none
  | p :: rest => if p.1 then some p.2 else firstTrueFlag rest

/-- The claimed document-side precedence list:
raw > log > binary > augmented. -/
def doc_flag_order (wm : WeightingMethod) : List (Bool × TFKind) :=
  [(wm.tf_raw, TFKind.raw), (wm.tf_log, TFKind.log),
    (wm.tf_binary, TFKind.binary), (wm.tf_augmented, TFKind.augmented)]

/-- The query-side precedence list actually implemented by
`get_tf_weight`: raw > augmented > binary > logarithmic. -/
def query_flag_order (wm : WeightingMethod) : List (Bool × TFKind) :=
  [(wm.tf_raw, TFKind.raw), (wm.tf_augmented, TFKind.augmented),
    (wm.tf_binary, TFKind.binary), (wm.tf_logarithmic, TFKind.log)]

/-- Document-side application of a selected TF variant (`none` = no
flag set = raw frequency default). -/
def apply_doc_tf (log2 : K → K) (f maxFreqInDoc : ℕ) :
    Option TFKind → K
  | some TFKind.raw => (f : K)
  | some TFKind.log => 1 + log2 (f : K)
  | some TFKind.binary => 1
  | some TFKind.augmented =>
      1 / 2 + 1 / 2 * ((f : K) / (maxFreqInDoc : K))
  | none => (f : K)

/-- Query-side application of a selected TF variant (`none` = no flag
set = raw frequency default). -/
def apply_query_tf (ln : K → K) (f max_tf : ℕ) : Option TFKind → K
  | some TFKind.raw => (f : K)
  | some TFKind.log => if 0 < f then 1 + ln (f : K) else 0
  | some TFKind.binary => if 0 < f then 1 else 0
  | some TFKind.augmented => 1 / 2 + 1 / 2 * ((f : K) / (max_tf : K))
  | none => (f : K)

/-- "the sum over those shared terms of queryWeight[term] *
indexWeight[term][doc]": one summand per query-vector entry, `0` for a
term absent from the index or a document not posted under the term. -/
def spec_score (query_vector : List (String × K))
    (document_vectors : List (String × List (String × K)))
    (d : String) : K :=
  (query_vector.map (fun q => q.2 *
    (match lookupA document_vectors q.1 with
      | some postings => lookupD postings d 0
      | none => 0))).sum

/-- "pools all threshold-filtered candidates from every query term into
one list": the per-term filtered oracle answers, tagged with their
source term, concatenated in query-term order. -/
def spec_pool (oracle : String → List (String × K))
    (query_terms : List String) (threshold : K) :
    List (ExpansionCandidate K) :=
  (query_terms.map (fun t =>
    (get_similar_terms oracle threshold t).map
      (fun p => ExpansionCandidate.mk t p.1 p.2))).flatten

/-- The batch queries that `retrieve_document_batch_query` actually
processes: exactly those whose id has a relevance judgment, each mapped
through `retrieve_document_single_query`. -/
def spec_processed_queries (ln sqrtK : K → K)
    (tokenize : String → List String)
    (inverted_file : List (String × List (String × K)))
    (weighting_method : WeightingMethod)
    (relevant_doc : List (String × List ℤ))
    (list_query : List (String × String)) :
    List ((List (String × K)) × ℚ) :=
  (list_query.filter (fun p => (lookupA relevant_doc p.1).isSome)).map
    (fun p => retrieve_document_single_query ln sqrtK tokenize p.2
      inverted_file weighting_method (lookupD relevant_doc p.1 []))

end SpecSide

end IRSB

namespace IRSB

/-! ## Theorems for claim C2 -/

/-- C2 (counterexample): on `retrieved = {"A": ["1","3","5"],
"B": ["4","2","1","6"]}` and `relevant = {"A": ["1","4","5","6"],
"B": ["2","4","3"]}` the code yields `AP(A) = 5/12 ≈ 0.4167`,
`AP(B) = 2/3 ≈ 0.6667` and `MAP = 13/24 ≈ 0.5417`, none of which agrees
with the claimed `0.5556`, `0.3333`, `0.4444` to four decimal places. -/
theorem map_example_contradicts_claim :
    calculate_average_precision ["1", "3", "5"] ["1", "4", "5", "6"] = 5 / 12 ∧
    calculate_average_precision ["4", "2", "1", "6"] ["2", "4", "3"] = 2 / 3 ∧
    calculate_map
        [("A", ["1", "3", "5"]), ("B", ["4", "2", "1", "6"])]
        [("A", ["1", "4", "5", "6"]), ("B", ["2", "4", "3"])] =
      Except.ok (13 / 24) ∧
    ¬ |(5 : ℚ) / 12 - 5556 / 10000| ≤ 1 / 10000 ∧
    ¬ |(2 : ℚ) / 3 - 3333 / 10000| ≤ 1 / 10000 ∧
    ¬ |(13 : ℚ) / 24 - 4444 / 10000| ≤ 1 / 10000 := by
  refine ⟨?_, ?_, ?_, ?_, ?_, ?_⟩ <;>
    norm_num +decide [calculate_map, sum_average_precisions,
      calculate_average_precision, sum_precisions, calculate_precision_at_k,
      lookupA, List.countP_cons, List.countP_nil, abs]

/-- C2 (amended): on the claim's inputs the evaluation functions return
`AP(A) = 5/12 ≈ 0.4167`, `AP(B) = 2/3 ≈ 0.6667` and
`MAP = 13/24 ≈ 0.5417` (the value recorded in the test comment at the
bottom of `evaluation.py`). -/
theorem map_example_exact_values :
    calculate_average_precision ["1", "3", "5"] ["1", "4", "5", "6"] = 5 / 12 ∧
    calculate_average_precision ["4", "2", "1", "6"] ["2", "4", "3"] = 2 / 3 ∧
    calculate_map
        [("A", ["1", "3", "5"]), ("B", ["4", "2", "1", "6"])]
        [("A", ["1", "4", "5", "6"]), ("B", ["2", "4", "3"])] =
      Except.ok (13 / 24) := by
  refine ⟨?_, ?_, ?_⟩ <;>
    norm_num +decide [calculate_map, sum_average_precisions,
      calculate_average_precision, sum_precisions, calculate_precision_at_k,
      lookupA, List.countP_cons, List.countP_nil]

end IRSB

namespace IRSB

/-! ## Shared helper lemmas about association lists -/

theorem lookupA_mem {α : Type} {l : List (String × α)} {k : String} {v : α}
    (h : lookupA l k = some v) : (k, v) ∈ l := by
  induction l with
  | nil => simp [lookupA] at h
  | cons p rest ih =>
    obtain ⟨a, b⟩ := p
    by_cases hp : a = k
    · subst hp
      simp [lookupA] at h
      subst h
      exact List.mem_cons_self _ _
    · simp only [lookupA, hp, if_false] at h
      exact List.mem_cons_of_mem _ (ih h)

theorem lookupA_isSome_iff {α : Type} {l : List (String × α)} {k : String} :
    (lookupA l k).isSome ↔ k ∈ keys l := by
  induction l with
  | nil => simp [lookupA, keys]
  | cons p rest ih =>
    by_cases hp : p.1 = k
    · simp [lookupA, keys, hp]
    · simp [lookupA, keys, hp, ih, Ne.symm hp]

theorem lookupA_eq_none_iff {α : Type} {l : List (String × α)} {k : String} :
    lookupA l k = none ↔ k ∉ keys l := by
  rw [← lookupA_isSome_iff, Option.isSome_iff_exists]
  cases lookupA l k <;> simp

theorem lookupA_eq_some_of_mem {α : Type} {l : List (String × α)}
    {k : String} {v : α} (hnd : (keys l).Nodup) (hm : (k, v) ∈ l) :
    lookupA l k = some v := by
  induction l with
  | nil => simp at hm
  | cons p rest ih =>
    obtain ⟨a, b⟩ := p
    simp only [keys, List.map_cons, List.nodup_cons] at hnd
    rcases List.mem_cons.mp hm with h | h
    · cases h; simp [lookupA]
    · have hk : a ≠ k := by
        intro hak
        exact hnd.1 (hak ▸ (List.mem_map_of_mem Prod.fst h))
      simp only [lookupA, hk, if_false]
      exact ih hnd.2 h

theorem lookupA_of_lookupD_ne {α : Type} {l : List (String × α)} {k : String}
    {dflt : α} (h : lookupD l k dflt ≠ dflt) :
    lookupA l k = some (lookupD l k dflt) := by
  unfold lookupD at *
  cases hx : lookupA l k with
  | none => rw [hx] at h; simp at h
  | some v => simp

theorem lookupA_isSome_eq {α : Type} (l : List (String × α)) (k : String) :
    (lookupA l k).isSome = decide (k ∈ keys l) := by
  by_cases h : k ∈ keys l
  · simp [h, lookupA_isSome_iff.mpr h]
  · simp [h, lookupA_eq_none_iff.mpr h]

theorem lookupA_perm {α : Type} {l l' : List (String × α)} {k : String}
    (hnd : (keys l).Nodup) (hp : l.Perm l') :
    lookupA l k = lookupA l' k := by
  have hnd' : (keys l').Nodup := ((hp.map Prod.fst).nodup_iff).mp hnd
  cases h : lookupA l k with
  | some v =>
    exact (lookupA_eq_some_of_mem hnd' (hp.mem_iff.mp (lookupA_mem h))).symm
  | none =>
    have : k ∉ keys l' := by
      intro hk
      exact (lookupA_eq_none_iff.mp h)
        (((hp.map Prod.fst).mem_iff).mpr hk)
    exact (lookupA_eq_none_iff.mpr this).symm

end IRSB

namespace IRSB

section WeightingThms

variable {K : Type} [LinearOrderedField K]

/-! ## Theorems for claim C1 -/

/-- C1: for every document, term and configuration, the document-side
weight computed by `calculate_tf_idf` is `0` when the term's raw
frequency in the document is `0`, and otherwise equals
TF × IDF × Normalization with the TF, IDF and Normalization components
exactly as the claim states them (`spec_tf`, `spec_idf`,
`spec_normalization`, with `maxFreqInDoc` the maximum raw frequency in
the same document and `df` the number of documents containing the
term). -/
theorem calculate_tf_idf_formula (log2 : K → K)
    (freq_file : List (String × List (String × ℕ)))
    (weighting_method : WeightingMethod) (term doc : String) :
    calculate_tf_idf log2 term doc freq_file weighting_method =
      if lookupD (lookupD freq_file doc []) term 0 = 0 then 0
      else
        spec_tf log2 weighting_method
            (lookupD (lookupD freq_file doc []) term 0)
            (spec_maxFreqInDoc (lookupD freq_file doc [])) *
          spec_idf log2 weighting_method freq_file.length
            (spec_df freq_file term) *
          spec_normalization weighting_method (lookupD freq_file doc []) := by
  by_cases hf : lookupD (lookupD freq_file doc []) term 0 = 0
  · simp [calculate_tf_idf, hf]
  · have hsome : lookupA (lookupD freq_file doc []) term =
        some (lookupD (lookupD freq_file doc []) term 0) :=
      lookupA_of_lookupD_ne hf
    have hmem : (term, lookupD (lookupD freq_file doc []) term 0) ∈
        lookupD freq_file doc [] := lookupA_mem hsome
    have htdne : lookupD freq_file doc [] ≠ [] := List.ne_nil_of_mem hmem
    have hfm : lookupD (lookupD freq_file doc []) term 0 ∈
        (lookupD freq_file doc []).map Prod.snd :=
      List.mem_map_of_mem Prod.snd hmem
    have hsum : ((lookupD freq_file doc []).map Prod.snd).sum ≠ 0 := by
      intro h0
      exact hf (List.sum_eq_zero_iff.mp h0 _ hfm)
    have hmapne : (lookupD freq_file doc []).map Prod.snd ≠ [] := by
      simpa using htdne
    have hdf : (freq_file.filter
        (fun p => (lookupA p.2 term).isSome)).length = spec_df freq_file term := by
      unfold spec_df
      congr 1
      exact List.filter_congr (fun p _ => lookupA_isSome_eq p.2 term)
    simp only [calculate_tf_idf, hf, if_false, hdf, spec_tf, spec_idf,
      spec_normalization, spec_maxFreqInDoc, hmapne, htdne, hsum,
      if_neg hf, if_neg hmapne, if_neg htdne, if_neg hsum]

/-! ## Theorems for claim C3 -/

/-- C3 (counterexample): with `tf_binary` and `tf_augmented` both set,
the claim predicts the binary variant (weight `1`) on the query side,
but `calculate_query_weight` applies the augmented variant: for the
query terms `["a", "a", "b"]` the term `b` (frequency 1, max frequency
2) receives weight `0.5 + 0.5·(1/2) = 3/4 ≠ 1`, as does the closure
`get_tf_weight` it computes it with. -/
theorem query_tf_precedence_counterexample :
    calculate_query_weight (K := ℚ) id id (fun _ => ["a", "a", "b"]) "a a b"
        { tf_binary := true, tf_augmented := true } [] =
      [("a", 1), ("b", 3 / 4)] ∧
    get_tf_weight (K := ℚ) id
        { tf_binary := true, tf_augmented := true } 2 1 = 3 / 4 ∧
    (3 / 4 : ℚ) ≠ 1 := by
  refine ⟨?_, ?_, by norm_num⟩
  · norm_num +decide [calculate_query_weight, term_freq_of, bump_count,
      get_tf_weight, lookupA, keys]
  · norm_num +decide [get_tf_weight]

/-- C3 (amended): the document side of the claim holds — the TF factor
of `calculate_tf_idf` is the variant of the first true flag in the
order raw > log > binary > augmented; but the query side
`get_tf_weight` (the TF component of `calculate_query_weight`) applies
the first true flag in the order
raw > augmented > binary > logarithmic. -/
theorem tf_flag_precedence (log2 ln : K → K)
    (weighting_method : WeightingMethod)
    (freq_file : List (String × List (String × ℕ))) (term doc : String)
    (hf : lookupD (lookupD freq_file doc []) term 0 ≠ 0) :
    calculate_tf_idf log2 term doc freq_file weighting_method =
      apply_doc_tf log2 (lookupD (lookupD freq_file doc []) term 0)
        (spec_maxFreqInDoc (lookupD freq_file doc []))
        (firstTrueFlag (doc_flag_order weighting_method)) *
      spec_idf log2 weighting_method freq_file.length
        (spec_df freq_file term) *
      spec_normalization weighting_method (lookupD freq_file doc []) ∧
    (∀ max_tf tf : ℕ, get_tf_weight ln weighting_method max_tf tf =
      apply_query_tf ln tf max_tf
        (firstTrueFlag (query_flag_order weighting_method))) := by
  constructor
  · rw [calculate_tf_idf_formula, if_neg hf]
    have htf : spec_tf log2 weighting_method
        (lookupD (lookupD freq_file doc []) term 0)
        (spec_maxFreqInDoc (lookupD freq_file doc [])) =
        apply_doc_tf log2 (lookupD (lookupD freq_file doc []) term 0)
          (spec_maxFreqInDoc (lookupD freq_file doc []))
          (firstTrueFlag (doc_flag_order weighting_method)) := by
      obtain ⟨r, lg, b, a, i, n, ql⟩ := weighting_method
      cases r <;> cases lg <;> cases b <;> cases a <;>
        simp [spec_tf, apply_doc_tf, doc_flag_order, firstTrueFlag]
    rw [htf]
  · intro max_tf tf
    obtain ⟨r, lg, b, a, i, n, ql⟩ := weighting_method
    cases r <;> cases a <;> cases b <;> cases ql <;>
      simp [get_tf_weight, apply_query_tf, query_flag_order, firstTrueFlag]

end WeightingThms

end IRSB

namespace IRSB

/-- C3 witness: the amended precedence theorem at a concrete input
(`tf_binary` and `tf_augmented` both set). -/
theorem tf_flag_precedence_witness :
    calculate_tf_idf (K := ℚ) id "t" "d" [("d", [("t", 2)])]
        { tf_binary := true, tf_augmented := true } =
      apply_doc_tf id (lookupD (lookupD [("d", [("t", 2)])] "d" []) "t" 0)
        (spec_maxFreqInDoc (lookupD [("d", [("t", 2)])] "d" []))
        (firstTrueFlag (doc_flag_order
          { tf_binary := true, tf_augmented := true })) *
      spec_idf id { tf_binary := true, tf_augmented := true }
        ([("d", [("t", 2)])] : List (String × List (String × ℕ))).length
        (spec_df [("d", [("t", 2)])] "t") *
      spec_normalization { tf_binary := true, tf_augmented := true }
        (lookupD [("d", [("t", 2)])] "d" []) ∧
    get_tf_weight (K := ℚ) id { tf_binary := true, tf_augmented := true } 2 1 =
      apply_query_tf id 1 2 (firstTrueFlag (query_flag_order
        { tf_binary := true, tf_augmented := true })) :=
  ⟨(tf_flag_precedence id id _ [("d", [("t", 2)])] "t" "d"
      (by decide)).1,
    (tf_flag_precedence id id _ [("d", [("t", 2)])] "t" "d"
      (by decide)).2 2 1⟩

/-! ## Theorems for claim C4 -/

/-- C4 (counterexample): with only `tf_logarithmic` set and frequency 2,
the query-side TF component is `1 + ln 2` (`math.log` is the natural
logarithm), while the document side with only `tf_log` set and
frequency 2 yields `1 + log2 2`; the two values differ because
`ln 2 ≠ 1 = log2 2`. -/
theorem query_log_tf_counterexample :
    get_tf_weight (K := ℝ) Real.log { tf_logarithmic := true } 2 2 =
      1 + Real.log 2 ∧
    calculate_tf_idf (K := ℝ) (Real.logb 2) "t" "d" [("d", [("t", 2)])]
        { tf_log := true } = 1 + Real.logb 2 2 ∧
    (1 + Real.log 2 : ℝ) ≠ 1 + Real.logb 2 2 := by
  refine ⟨?_, ?_, ?_⟩
  · norm_num [get_tf_weight]
  · norm_num +decide [calculate_tf_idf, lookupD, lookupA]
  · have h2 : (2 : ℝ) < Real.exp 1 := lt_trans (by norm_num) Real.exp_one_gt_d9
    have h1 : Real.log 2 < 1 := by
      calc Real.log 2 < Real.log (Real.exp 1) :=
            Real.log_lt_log (by norm_num) h2
        _ = 1 := Real.log_exp 1
    have h3 : Real.logb 2 2 = 1 := Real.logb_self_eq_one (by norm_num)
    intro h
    rw [h3] at h
    exact absurd (add_left_cancel h) (ne_of_lt h1)

/-- C4 (amended): with only `tf_logarithmic` set among the query-side
TF flags and frequency `f ≥ 1`, the query-side TF component equals
`1 + ln f` with `ln` the natural logarithm (`math.log`), not the
document side's base-2 logarithm. -/
theorem query_log_tf_natural_log {K : Type} [LinearOrderedField K]
    (ln : K → K) (weighting_method : WeightingMethod)
    (hraw : weighting_method.tf_raw = false)
    (haug : weighting_method.tf_augmented = false)
    (hbin : weighting_method.tf_binary = false)
    (hlog : weighting_method.tf_logarithmic = true)
    (max_tf tf : ℕ) (htf : 1 ≤ tf) :
    get_tf_weight ln weighting_method max_tf tf = 1 + ln (tf : K) := by
  simp [get_tf_weight, hraw, haug, hbin, hlog,
    Nat.lt_of_lt_of_le Nat.zero_lt_one htf]

/-- C4 witness: the amended theorem at a concrete input. -/
theorem query_log_tf_natural_log_witness :
    get_tf_weight (K := ℚ) id { tf_logarithmic := true } 3 2 =
      1 + id ((2 : ℕ) : ℚ) :=
  query_log_tf_natural_log id _ rfl rfl rfl rfl 3 2 (by decide)

/-! ## Theorem for claim C5 -/

/-- C5 (failing input): in the unlimited path (`limit = -1`),
`expand_query` does not deduplicate `expanded_terms`, contrary to the
claim (and to the source's own `# Hapus duplikat` comment): for the
preprocessed query terms `["a", "a"]` and an oracle offering `b` with
similarity 0.9 above the threshold 0.5, the result is `["a", "a", "b"]`,
which contains a duplicate. -/
theorem expand_query_unlimited_keeps_duplicates :
    (expand_query (K := ℚ) (fun _ => [("b", 9 / 10)]) ["a", "a"] (1 / 2)
        (-1)).expanded_terms = ["a", "a", "b"] ∧
    ¬ (["a", "a", "b"] : List String).Nodup := by
  constructor
  · norm_num +decide [expand_query, get_similar_terms, upsert]
  · decide

end IRSB

namespace IRSB

/-! ## Lemmas about the stable descending sort -/

section SortLemmas

variable {K : Type} [LinearOrderedField K] {β : Type}

theorem sorted_desc_perm (val : β → K) (l : List β) :
    (sorted_desc val l).Perm l := by
  unfold sorted_desc
  have h := (List.perm_insertionSort (descIdx val) l.enum).map Prod.snd
  rwa [List.enum_map_snd] at h

theorem sorted_desc_pairwise (val : β → K) (l : List β) :
    (sorted_desc val l).Pairwise (fun a b => val b ≤ val a) := by
  unfold sorted_desc
  have hs : (List.insertionSort (descIdx val) l.enum).Sorted (descIdx val) :=
    List.sorted_insertionSort _ _
  have hp : (List.insertionSort (descIdx val) l.enum).Pairwise
      (fun a b => val b.2 ≤ val a.2) :=
    hs.imp (fun h => by
      rcases h with h | ⟨h, _⟩
      · exact le_of_lt h
      · exact le_of_eq h.symm)
  exact List.pairwise_map.mpr hp

theorem foldl_append_eq_flatten {α γ : Type} (f : α → List γ) :
    ∀ (l : List α) (acc : List γ),
      l.foldl (fun a t => a ++ f t) acc = acc ++ (l.map f).flatten := by
  intro l
  induction l with
  | nil => intro acc; simp
  | cons t rest ih => intro acc; simp [ih, List.append_assoc]

end SortLemmas

/-! ## Theorem for claim C8 -/

section C8

variable {K : Type} [LinearOrderedField K]

/-- C8: with `limit = N ≥ 0`, `expand_query` pools every
threshold-filtered candidate of every query term (`spec_pool`, in
source-term order then oracle order), sorts the pool stably by
descending similarity (`sorted_desc`, the unique sort for the total
order `descIdx`), truncates to the first `N`, and returns the original
terms followed by exactly `min N (pool length)` candidate terms without
deduplication. -/
theorem expand_query_limited_spec (oracle : String → List (String × K))
    (query_terms : List String) (threshold : K) (N : ℕ) :
    (expand_query oracle query_terms threshold (N : ℤ)).expanded_terms =
      query_terms ++
        ((sorted_desc (fun c => c.similarity)
          (spec_pool oracle query_terms threshold)).take N).map
          (fun c => c.term) ∧
    (expand_query oracle query_terms threshold
        (N : ℤ)).expanded_terms.length =
      query_terms.length +
        min N (spec_pool oracle query_terms threshold).length ∧
    (sorted_desc (fun c => c.similarity)
      (spec_pool oracle query_terms threshold)).Perm
      (spec_pool oracle query_terms threshold) ∧
    ((sorted_desc (fun c => c.similarity)
      (spec_pool oracle query_terms threshold)).map
      (fun c => c.similarity)).Pairwise (fun a b => b ≤ a) ∧
    (List.insertionSort
      (descIdx (fun c : ExpansionCandidate K => c.similarity))
      (spec_pool oracle query_terms threshold).enum).Sorted
      (descIdx (fun c => c.similarity)) := by
  have hlim : (-1 : ℤ) < (N : ℤ) := by omega
  have hpool : query_terms.foldl
      (fun acc term => acc ++ (get_similar_terms oracle threshold term).map
        (fun p => ⟨term, p.1, p.2⟩)) ([] : List (ExpansionCandidate K)) =
      spec_pool oracle query_terms threshold := by
    rw [foldl_append_eq_flatten]
    simp [spec_pool]
  have hexp : (expand_query oracle query_terms threshold
      (N : ℤ)).expanded_terms =
      query_terms ++
        ((sorted_desc (fun c => c.similarity)
          (spec_pool oracle query_terms threshold)).take N).map
          (fun c => c.term) := by
    simp only [expand_query, hlim, if_pos, if_true, hpool, Int.toNat_natCast]
  refine ⟨hexp, ?_, sorted_desc_perm _ _,
    List.pairwise_map.mpr (sorted_desc_pairwise _ _),
    List.sorted_insertionSort _ _⟩
  rw [hexp]
  rw [List.length_append, List.length_map, List.length_take,
    (sorted_desc_perm (fun c : ExpansionCandidate K => c.similarity)
      (spec_pool oracle query_terms threshold)).length_eq]

end C8

end IRSB

namespace IRSB

/-! ## Lemmas about score accumulation (claim C6) -/

section C6Lemmas

variable {K : Type} [LinearOrderedField K]

theorem add_score_cons_self (p : String × K) (rest : List (String × K))
    (v : K) : add_score (p :: rest) p.1 v = (p.1, p.2 + v) :: rest := by
  simp [add_score]

theorem add_score_cons_ne (p : String × K) (rest : List (String × K))
    (doc : String) (v : K) (hp : ¬ p.1 = doc) :
    add_score (p :: rest) doc v = p :: add_score rest doc v := by
  simp [add_score, hp]

theorem add_score_lookupD (doc x : String) (v : K) :
    ∀ acc : List (String × K),
      lookupD (add_score acc doc v) x 0 =
        (if x = doc then v else 0) + lookupD acc x 0 := by
  intro acc
  induction acc with
  | nil =>
    by_cases h : x = doc
    · subst h; simp [add_score, lookupD, lookupA]
    · have h' : ¬ doc = x := fun hh => h hh.symm
      simp [add_score, lookupD, lookupA, h, h']
  | cons p rest ih =>
    by_cases hp : p.1 = doc
    · subst hp
      rw [add_score_cons_self]
      by_cases hx : x = p.1
      · subst hx
        simp [lookupD, lookupA]
        ring
      · have hx'' : ¬ p.1 = x := fun hh => hx hh.symm
        simp [lookupD, lookupA, hx, hx'']
    · rw [add_score_cons_ne p rest doc v hp]
      by_cases hx : x = p.1
      · subst hx
        simp [lookupD, lookupA, hp]
      · have hx'' : ¬ p.1 = x := fun hh => hx hh.symm
        simp only [lookupD, lookupA, if_neg hx'']
        exact ih

theorem add_score_mem_keys (doc x : String) (v : K) :
    ∀ acc : List (String × K),
      x ∈ keys (add_score acc doc v) ↔ x ∈ keys acc ∨ x = doc := by
  intro acc
  induction acc with
  | nil => simp [add_score, keys]
  | cons p rest ih =>
    simp only [keys, List.map_cons, List.mem_cons] at ih ⊢
    by_cases hp : p.1 = doc
    · subst hp
      rw [add_score_cons_self]
      simp only [List.map_cons, List.mem_cons]
      tauto
    · rw [add_score_cons_ne p rest doc v hp]
      simp only [List.map_cons, List.mem_cons]
      tauto

theorem add_score_nodup (doc : String) (v : K) :
    ∀ acc : List (String × K),
      (keys acc).Nodup → (keys (add_score acc doc v)).Nodup := by
  intro acc
  induction acc with
  | nil => intro _; simp [add_score, keys]
  | cons p rest ih =>
    intro h
    simp only [keys, List.map_cons, List.nodup_cons] at h
    by_cases hp : p.1 = doc
    · subst hp
      rw [add_score_cons_self]
      simp only [keys, List.map_cons, List.nodup_cons]
      exact h
    · rw [add_score_cons_ne p rest doc v hp]
      simp only [keys, List.map_cons, List.nodup_cons]
      refine ⟨?_, ih h.2⟩
      intro hmem
      rcases (add_score_mem_keys doc p.1 v rest).mp hmem with hm | hm
      · exact h.1 hm
      · exact hp hm

theorem fold_postings_lookupD (c : K) (x : String) :
    ∀ (ps : List (String × K)) (acc : List (String × K)),
      (keys ps).Nodup →
      lookupD (ps.foldl (fun a d => add_score a d.1 (c * d.2)) acc) x 0 =
        lookupD acc x 0 + c * lookupD ps x 0 := by
  intro ps
  induction ps with
  | nil => intro acc _; simp [lookupD, lookupA]
  | cons d rest ih =>
    intro acc hnd
    simp only [keys, List.map_cons, List.nodup_cons] at hnd
    rw [List.foldl_cons, ih _ hnd.2, add_score_lookupD]
    by_cases hx : x = d.1
    · subst hx
      have hnone : lookupA rest d.1 = none := lookupA_eq_none_iff.mpr hnd.1
      simp [lookupD, lookupA, hnone]
      ring
    · have hx'' : ¬ d.1 = x := fun hh => hx hh.symm
      simp [lookupD, lookupA, hx, hx'']

theorem fold_postings_mem_keys (c : K) (x : String) :
    ∀ (ps : List (String × K)) (acc : List (String × K)),
      x ∈ keys (ps.foldl (fun a d => add_score a d.1 (c * d.2)) acc) ↔
        x ∈ keys acc ∨ x ∈ keys ps := by
  intro ps
  induction ps with
  | nil => intro acc; simp [keys]
  | cons d rest ih =>
    intro acc
    rw [List.foldl_cons, ih, add_score_mem_keys]
    simp only [keys, List.map_cons, List.mem_cons]
    tauto

theorem fold_postings_nodup (c : K) :
    ∀ (ps : List (String × K)) (acc : List (String × K)),
      (keys acc).Nodup →
      (keys (ps.foldl (fun a d => add_score a d.1 (c * d.2)) acc)).Nodup := by
  intro ps
  induction ps with
  | nil => intro acc h; exact h
  | cons d rest ih =>
    intro acc h
    rw [List.foldl_cons]
    exact ih _ (add_score_nodup _ _ _ h)

end C6Lemmas

end IRSB

namespace IRSB

section C6Thms

variable {K : Type} [LinearOrderedField K]

theorem fold_query_lookupD
    (document_vectors : List (String × List (String × K)))
    (hdv : ∀ p ∈ document_vectors, (keys p.2).Nodup) (x : String) :
    ∀ (query_vector : List (String × K)) (acc : List (String × K)),
      (keys acc).Nodup →
      lookupD (query_vector.foldl
        (fun acc q =>
          match lookupA document_vectors q.1 with
          | some postings =>
              postings.foldl (fun acc2 d => add_score acc2 d.1 (q.2 * d.2)) acc
          | none => acc) acc) x 0 =
        lookupD acc x 0 + spec_score query_vector document_vectors x := by
  intro qv
  induction qv with
  | nil => intro acc _; simp [spec_score, lookupD]
  | cons q rest ih =>
    intro acc hacc
    rw [List.foldl_cons]
    cases hq : lookupA document_vectors q.1 with
    | none =>
      simp only [hq]
      rw [ih _ hacc]
      simp [spec_score, hq]
    | some ps =>
      have hps : (keys ps).Nodup := hdv (q.1, ps) (lookupA_mem hq)
      simp only [hq]
      rw [ih _ (fold_postings_nodup _ _ _ hacc),
        fold_postings_lookupD _ _ _ _ hps]
      simp only [spec_score, List.map_cons, List.sum_cons, hq]
      ring

theorem mem_keys_lookupD_iff
    (document_vectors : List (String × List (String × K))) (t x : String) :
    x ∈ keys (lookupD document_vectors t []) ↔
      ∃ ps, lookupA document_vectors t = some ps ∧ x ∈ keys ps := by
  cases h : lookupA document_vectors t with
  | none => simp [lookupD, h, keys]
  | some ps => simp [lookupD, h]

theorem fold_query_mem_keys
    (document_vectors : List (String × List (String × K))) (x : String) :
    ∀ (query_vector : List (String × K)) (acc : List (String × K)),
      x ∈ keys (query_vector.foldl
        (fun acc q =>
          match lookupA document_vectors q.1 with
          | some postings =>
              postings.foldl (fun acc2 d => add_score acc2 d.1 (q.2 * d.2)) acc
          | none => acc) acc) ↔
        x ∈ keys acc ∨
          ∃ q ∈ query_vector, x ∈ keys (lookupD document_vectors q.1 []) := by
  intro qv
  induction qv with
  | nil => intro acc; simp
  | cons q rest ih =>
    intro acc
    rw [List.foldl_cons]
    cases hq : lookupA document_vectors q.1 with
    | none =>
      simp only [hq]
      rw [ih]
      simp [lookupD, hq, keys, List.mem_cons, exists_eq_or_imp]
    | some ps =>
      simp only [hq]
      rw [ih, fold_postings_mem_keys]
      simp only [lookupD, hq, Option.getD_some, List.mem_cons,
        exists_eq_or_imp]
      tauto

theorem fold_query_nodup
    (document_vectors : List (String × List (String × K))) :
    ∀ (query_vector : List (String × K)) (acc : List (String × K)),
      (keys acc).Nodup →
      (keys (query_vector.foldl
        (fun acc q =>
          match lookupA document_vectors q.1 with
          | some postings =>
              postings.foldl (fun acc2 d => add_score acc2 d.1 (q.2 * d.2)) acc
          | none => acc) acc)).Nodup := by
  intro qv
  induction qv with
  | nil => intro acc h; exact h
  | cons q rest ih =>
    intro acc h
    rw [List.foldl_cons]
    cases hq : lookupA document_vectors q.1 with
    | none => simp only [hq]; exact ih _ h
    | some ps => simp only [hq]; exact ih _ (fold_postings_nodup _ _ _ h)

/-! ## Theorem for claim C6 -/

/-- C6: `calculate_similarity` returns exactly the documents posted
under at least one term shared between the query vector and the index
(absent documents are not scored 0 — they are absent); each returned
document's score is the sum over the query-vector terms of
queryWeight·indexWeight (`spec_score`); and the returned sequence is
ordered by descending score. -/
theorem calculate_similarity_spec
    (query_vector : List (String × K))
    (document_vectors : List (String × List (String × K)))
    (hqv : (keys query_vector).Nodup)
    (hdv : ∀ p ∈ document_vectors, (keys p.2).Nodup) :
    (∀ d, d ∈ keys (calculate_similarity query_vector document_vectors) ↔
      ∃ q ∈ query_vector, ∃ ps, lookupA document_vectors q.1 = some ps ∧
        d ∈ keys ps) ∧
    (∀ d, d ∈ keys (calculate_similarity query_vector document_vectors) →
      lookupD (calculate_similarity query_vector document_vectors) d 0 =
        spec_score query_vector document_vectors d) ∧
    ((calculate_similarity query_vector document_vectors).map
      Prod.snd).Pairwise (fun a b => b ≤ a) := by
  have hnodS : (keys (query_vector.foldl
      (fun acc q =>
        match lookupA document_vectors q.1 with
        | some postings =>
            postings.foldl (fun acc2 d => add_score acc2 d.1 (q.2 * d.2)) acc
        | none => acc) ([] : List (String × K)))).Nodup :=
    fold_query_nodup document_vectors query_vector [] (by simp [keys])
  have hperm : (calculate_similarity query_vector document_vectors).Perm
      (query_vector.foldl
        (fun acc q =>
          match lookupA document_vectors q.1 with
          | some postings =>
              postings.foldl (fun acc2 d => add_score acc2 d.1 (q.2 * d.2)) acc
          | none => acc) ([] : List (String × K))) := by
    simp only [calculate_similarity]
    split
    · exact sorted_desc_perm _ _
    · exact List.Perm.refl _
  have hnodR : (keys (calculate_similarity query_vector
      document_vectors)).Nodup :=
    ((hperm.map Prod.fst).nodup_iff).mpr hnodS
  refine ⟨?_, ?_, ?_⟩
  · intro d
    have hmem : d ∈ keys (calculate_similarity query_vector
        document_vectors) ↔
        d ∈ keys (query_vector.foldl
          (fun acc q =>
            match lookupA document_vectors q.1 with
            | some postings =>
                postings.foldl (fun acc2 d => add_score acc2 d.1 (q.2 * d.2))
                  acc
            | none => acc) ([] : List (String × K))) :=
      (hperm.map Prod.fst).mem_iff
    rw [hmem, fold_query_mem_keys]
    simp only [keys, List.map_nil, List.not_mem_nil, false_or]
    constructor
    · rintro ⟨q, hqmem, hkeys⟩
      exact ⟨q, hqmem, (mem_keys_lookupD_iff document_vectors q.1 d).mp hkeys⟩
    · rintro ⟨q, hqmem, hps⟩
      exact ⟨q, hqmem, (mem_keys_lookupD_iff document_vectors q.1 d).mpr hps⟩
  · intro d _
    have hlook : lookupA (calculate_similarity query_vector
        document_vectors) d =
        lookupA (query_vector.foldl
          (fun acc q =>
            match lookupA document_vectors q.1 with
            | some postings =>
                postings.foldl (fun acc2 d => add_score acc2 d.1 (q.2 * d.2))
                  acc
            | none => acc) ([] : List (String × K))) d :=
      lookupA_perm hnodR hperm
    unfold lookupD
    rw [hlook]
    have := fold_query_lookupD document_vectors hdv d query_vector []
      (by simp [keys])
    unfold lookupD at this
    rw [this]
    simp [lookupA]
  · simp only [calculate_similarity]
    split
    · exact List.pairwise_map.mpr (sorted_desc_pairwise _ _)
    · rename_i hlen
      have h0 : (query_vector.foldl
          (fun acc q =>
            match lookupA document_vectors q.1 with
            | some postings =>
                postings.foldl (fun acc2 d => add_score acc2 d.1 (q.2 * d.2))
                  acc
            | none => acc) ([] : List (String × K))).length = 0 := by
        omega
      rw [List.length_eq_zero] at h0
      rw [h0]
      simp

end C6Thms

end IRSB

namespace IRSB

/-- C6 witness: the similarity theorem at a concrete query vector and
index. -/
theorem calculate_similarity_spec_witness :
    "d1" ∈ keys (calculate_similarity (K := ℚ) [("t", 2)]
        [("t", [("d1", 3), ("d2", 1)])]) ∧
    lookupD (calculate_similarity (K := ℚ) [("t", 2)]
        [("t", [("d1", 3), ("d2", 1)])]) "d1" 0 =
      spec_score (K := ℚ) [("t", 2)] [("t", [("d1", 3), ("d2", 1)])]
        "d1" := by
  have h := calculate_similarity_spec (K := ℚ) [("t", 2)]
    [("t", [("d1", 3), ("d2", 1)])] (by decide)
    (by intro p hp; simp at hp; subst hp; decide)
  have hmem : "d1" ∈ keys (calculate_similarity (K := ℚ) [("t", 2)]
      [("t", [("d1", 3), ("d2", 1)])]) :=
    (h.1 "d1").mpr ⟨("t", 2), by simp, [("d1", 3), ("d2", 1)],
      by simp [lookupA], by simp [keys]⟩
  exact ⟨hmem, h.2.1 "d1" hmem⟩

end IRSB

namespace IRSB

/-! ## Lemmas and theorem for claim C7 -/

theorem sum_average_precisions_ok
    (all_relevant_docs : List (String × List String)) :
    ∀ ar : List (String × List String),
      (∀ q ∈ keys ar, (lookupA all_relevant_docs q).isSome) →
      sum_average_precisions all_relevant_docs ar =
        Except.ok ((ar.map (fun p =>
          calculate_average_precision p.2
            (lookupD all_relevant_docs p.1 []))).sum) := by
  intro ar
  induction ar with
  | nil => intro _; simp [sum_average_precisions]
  | cons p rest ih =>
    intro h
    have hp : (lookupA all_relevant_docs p.1).isSome :=
      h p.1 (by simp [keys])
    obtain ⟨r, hr⟩ := Option.isSome_iff_exists.mp hp
    have hrest : ∀ q ∈ keys rest, (lookupA all_relevant_docs q).isSome :=
      fun q hq => h q (by simp [keys] at hq ⊢; exact Or.inr hq)
    simp only [sum_average_precisions, hr, ih hrest]
    simp [lookupD, hr]

theorem sum_average_precisions_missing
    (all_relevant_docs : List (String × List String)) :
    ∀ ar : List (String × List String),
      (∃ q ∈ keys ar, lookupA all_relevant_docs q = none) →
      sum_average_precisions all_relevant_docs ar =
        Except.error
          "There is a query that doesn't have any relevant document" := by
  intro ar
  induction ar with
  | nil => rintro ⟨q, hq, _⟩; simp [keys] at hq
  | cons p rest ih =>
    rintro ⟨q, hq, hnone⟩
    cases hl : lookupA all_relevant_docs p.1 with
    | none => simp [sum_average_precisions, hl]
    | some r =>
      have hqrest : q ∈ keys rest := by
        simp only [keys, List.map_cons, List.mem_cons] at hq
        rcases hq with hq | hq
        · subst hq; rw [hl] at hnone; cases hnone
        · exact hq
      simp [sum_average_precisions, hl, ih ⟨q, hqrest, hnone⟩]

/-- C7: `calculate_map` fails with the "missing relevance judgment"
error whenever some query id of `all_retrieved_docs` has no entry in
`all_relevant_docs` (fatal for the batch, not skipped; stated under the
spec's standing precondition that judged relevant lists are nonempty),
and when every query id has a judgment (`all_retrieved_docs` nonempty,
judged lists nonempty) it returns the sum of the per-query average
precisions divided by the number of queries. -/
theorem calculate_map_spec
    (all_retrieved_docs all_relevant_docs : List (String × List String)) :
    ((∃ q ∈ keys all_retrieved_docs, lookupA all_relevant_docs q = none) →
      (∀ p ∈ all_retrieved_docs,
        ∀ r ∈ lookupA all_relevant_docs p.1, r ≠ []) →
      calculate_map all_retrieved_docs all_relevant_docs =
        Except.error
          "There is a query that doesn't have any relevant document") ∧
    ((∀ q ∈ keys all_retrieved_docs, (lookupA all_relevant_docs q).isSome) →
      all_retrieved_docs ≠ [] →
      (∀ p ∈ all_retrieved_docs,
        ∀ r ∈ lookupA all_relevant_docs p.1, r ≠ []) →
      calculate_map all_retrieved_docs all_relevant_docs =
        Except.ok ((all_retrieved_docs.map (fun p =>
            calculate_average_precision p.2
              (lookupD all_relevant_docs p.1 []))).sum /
          (all_retrieved_docs.length : ℚ))) := by
  constructor
  · intro hmiss _
    unfold calculate_map
    rw [sum_average_precisions_missing all_relevant_docs
      all_retrieved_docs hmiss]
  · intro hall hne _
    unfold calculate_map
    rw [sum_average_precisions_ok all_relevant_docs all_retrieved_docs hall]
    have : all_retrieved_docs.length ≠ 0 := by
      intro h0
      exact hne (List.length_eq_zero.mp h0)
    simp [this]

/-- C7 witness: both conjuncts of the MAP theorem at concrete inputs:
a batch with a missing judgment fails, a fully judged batch returns the
averaged AP. -/
theorem calculate_map_spec_witness :
    calculate_map [("a", ["1"]), ("b", ["1"])] [("a", ["1"])] =
      Except.error
        "There is a query that doesn't have any relevant document" ∧
    calculate_map [("q", ["1"])] [("q", ["1"])] =
      Except.ok (([("q", ["1"])].map (fun p =>
          calculate_average_precision p.2
            (lookupD [("q", ["1"])] p.1 []))).sum /
        (([("q", ["1"])] : List (String × List String)).length : ℚ)) := by
  constructor
  · exact (calculate_map_spec [("a", ["1"]), ("b", ["1"])] [("a", ["1"])]).1
      ⟨"b", by decide, by decide⟩
      (by intro p hp r hr; fin_cases hp <;> simp [lookupA] at hr <;>
        subst hr <;> simp)
  · exact (calculate_map_spec [("q", ["1"])] [("q", ["1"])]).2
      (by decide) (by decide)
      (by intro p hp r hr; fin_cases hp <;> simp [lookupA] at hr <;>
        subst hr <;> simp)

end IRSB

namespace IRSB

/-! ## Lemmas and theorem for claim C10 -/

section C10Thms

variable {K : Type} [LinearOrderedField K]

theorem batch_fold_eq (ln sqrtK : K → K) (tokenize : String → List String)
    (inverted_file : List (String × List (String × K)))
    (weighting_method : WeightingMethod)
    (relevant_doc : List (String × List ℤ)) :
    ∀ (list_query : List (String × String))
      (acc : List ((List (String × K)) × ℚ)),
      list_query.foldl
        (fun acc p =>
          match lookupA relevant_doc p.1 with
          | some rd =>
              acc ++ [retrieve_document_single_query ln sqrtK tokenize p.2
                inverted_file weighting_method rd]
          | none => acc) acc =
      acc ++ spec_processed_queries ln sqrtK tokenize inverted_file
        weighting_method relevant_doc list_query := by
  intro lq
  induction lq with
  | nil => intro acc; simp [spec_processed_queries]
  | cons p rest ih =>
    intro acc
    rw [List.foldl_cons]
    cases hq : lookupA relevant_doc p.1 with
    | none =>
      simp only [hq]
      rw [ih]
      simp [spec_processed_queries, List.filter_cons, hq]
    | some rd =>
      simp only [hq]
      rw [ih]
      simp [spec_processed_queries, List.filter_cons, hq, lookupD,
        List.append_assoc]

/-- C10: `retrieve_document_batch_query` processes exactly the query
ids that have a relevance judgment (`spec_processed_queries`; an
unjudged id is silently skipped with no error), returns the mean of the
per-query average precisions over only the processed queries, and fails
with a division-by-zero error when no query id in the batch has a
judgment. -/
theorem retrieve_batch_skips_unjudged (ln sqrtK : K → K)
    (tokenize : String → List String)
    (list_query : List (String × String))
    (inverted_file : List (String × List (String × K)))
    (weighting_method : WeightingMethod)
    (relevant_doc : List (String × List ℤ)) :
    (spec_processed_queries ln sqrtK tokenize inverted_file
        weighting_method relevant_doc list_query = [] →
      retrieve_document_batch_query ln sqrtK tokenize list_query
        inverted_file weighting_method relevant_doc =
        Except.error "ZeroDivisionError") ∧
    (spec_processed_queries ln sqrtK tokenize inverted_file
        weighting_method relevant_doc list_query ≠ [] →
      retrieve_document_batch_query ln sqrtK tokenize list_query
        inverted_file weighting_method relevant_doc =
        Except.ok
          (spec_processed_queries ln sqrtK tokenize inverted_file
            weighting_method relevant_doc list_query,
          ((spec_processed_queries ln sqrtK tokenize inverted_file
            weighting_method relevant_doc list_query).map Prod.snd).sum /
            (((spec_processed_queries ln sqrtK tokenize inverted_file
              weighting_method relevant_doc list_query).map
              Prod.snd).length : ℚ))) := by
  have hfold := batch_fold_eq ln sqrtK tokenize inverted_file
    weighting_method relevant_doc list_query []
  constructor
  · intro hempty
    simp only [retrieve_document_batch_query, hfold, List.nil_append,
      hempty]
    simp
  · intro hne
    have hlen : ((spec_processed_queries ln sqrtK tokenize inverted_file
        weighting_method relevant_doc list_query).map Prod.snd).length ≠
        0 := by
      simp only [List.length_map]
      intro h0
      exact hne (List.length_eq_zero.mp h0)
    simp only [retrieve_document_batch_query, hfold, List.nil_append]
    simp [hlen]
    exact hne

/-- C10 witness: a batch whose only query id has no judgment fails
with the division-by-zero error. -/
theorem retrieve_batch_skips_unjudged_witness :
    retrieve_document_batch_query (K := ℚ) id id (fun _ => [])
      [("q", "x")] [] {} [] = Except.error "ZeroDivisionError" :=
  (retrieve_batch_skips_unjudged id id (fun _ => []) [("q", "x")] [] {}
    []).1 rfl

end C10Thms

end IRSB
